import Mathlib

/-!
Verification of the fetch-and-unpack action and the cancellation bus of the
nix-installer core, as a shallow embedding of
`src/action/base/fetch_and_unpack_nix.rs` and `src/cli/mod.rs`.

External effects (the reqwest HTTP client, the tar/xz extraction, the
certificate parser collaborator, the filesystem) are modelled by an oracle
`World` supplying each effect's outcome, and execution returns the list of
effect events it performed, in order, so that "no network access" style
properties are statements about the returned event trace.
-/

/-- Raw archive bytes (`bytes::Bytes` / `Vec<u8>`), each byte a `Nat`. -/
abbrev Bytes := List Nat

/-- Model of `reqwest::Url`: a parsed URL with its scheme, host and path.
`scheme` models `Url::scheme()`, `urlPath` models `Url::path()`. -/
structure Url where
  scheme : String
  host : String
  urlPath : String
deriving DecidableEq, Repr

/-- Display form of a URL, as used in synopsis strings. -/
def Url.render (u : Url) : String :=
  u.scheme ++ "://" ++ u.host ++ u.urlPath

/-- Modelled from the spec: `UrlOrPath` (settings module, not under `src/`), a
"tagged union distinguishing remote/local URL from bare filesystem path". -/
inductive UrlOrPath where
  | url (u : Url)
  | path (p : String)
deriving DecidableEq, Repr

/-- Display form of a `UrlOrPath`, as used in synopsis strings. -/
def UrlOrPath.render : UrlOrPath → String
  | .url u => u.render
  | .path p => p

/-- Model of `distribution::TarballLocation`: a resolved byte source, either an
in-memory payload tagged with a provenance string, or a locator. -/
inductive TarballLocation where
  | InMemory (provenance : String) (payload : Bytes)
  | UrlOrPath (uop : UrlOrPath)
deriving DecidableEq, Repr

/-- Modelled from the spec: `Distribution` (distribution module, not under
`src/`) is a descriptor of where installable archive bytes originate —
"embedded bytes + provenance label, or URL-or-path locator". -/
inductive Distribution where
  | inMemory (provenance : String) (payload : Bytes)
  | locator (loc : UrlOrPath)
deriving DecidableEq, Repr

/-- Modelled from the spec: `Distribution::tarball_location_or` (not under
`src/`). Execute-time byte resolution gives priority to an embedded payload
("If the distribution supplies an embedded payload, use those bytes directly");
otherwise the explicitly configured locator is used, falling back to the
distribution's own locator when none was configured. -/
def Distribution.tarball_location_or (d : Distribution) (uop : Option UrlOrPath) :
    TarballLocation :=
  match d with
  | .inMemory provenance payload => .InMemory provenance payload
  | .locator loc => .UrlOrPath (uop.getD loc)

/-- Abstract I/O error (`std::io::Error`), identified by an error code. -/
structure IoError where
  code : Nat
deriving DecidableEq, Repr

/-- Abstract transport error (`reqwest::Error`), identified by a code. -/
structure ReqwestError where
  code : Nat
deriving DecidableEq, Repr

/-- Abstract parsed certificate (`reqwest::Certificate`). -/
structure Certificate where
  der : Bytes
deriving DecidableEq, Repr

/-- Abstract certificate parse failure of the certificate-parser
collaborator. -/
structure CertError where
  msg : String
deriving DecidableEq, Repr

/-- Model of `FetchUrlError` (declared in `fetch_and_unpack_nix.rs`): the
action's custom error kinds. -/
inductive FetchUrlError where
  | Unarchive (e : IoError)
  | UnknownProxyScheme
deriving DecidableEq, Repr

/-- Modelled from the spec: `ActionErrorKind` (action module, not under
`src/`), "a core set of well-known kinds (unknown scheme, read failure, remove
failure, transport failure) plus a boxed custom escape hatch", together with
the certificate parse failure kind produced by `parse_ssl_cert`. -/
inductive ActionErrorKind where
  | UnknownUrlScheme
  | Read (p : String) (e : IoError)
  | Remove (p : String) (e : IoError)
  | Reqwest (e : ReqwestError)
  | CertificateError (e : CertError)
  | Custom (e : FetchUrlError)
deriving DecidableEq, Repr

/-- Model of `impl From<FetchUrlError> for ActionErrorKind`: wrap in
`ActionErrorKind::Custom`. -/
def FetchUrlError.toKind (e : FetchUrlError) : ActionErrorKind :=
  ActionErrorKind.Custom e

/-- Modelled from the spec: `ActionError` "pairs an action's tag with an
ActionErrorKind". -/
structure ActionError where
  action_tag : String
  kind : ActionErrorKind
deriving DecidableEq, Repr

/-- Modelled from the spec: the completion flag of a `StatefulAction`,
"{Incomplete, Completed}". -/
inductive ActionState where
  | Incomplete
  | Completed
deriving DecidableEq, Repr

/-- Modelled from the spec: `StatefulAction<A>` "owns exactly one Action `A`
plus a binary completion flag". -/
structure StatefulAction (A : Type) where
  action : A
  state : ActionState
deriving DecidableEq, Repr

/-- Modelled from the spec: `impl From<A> for StatefulAction<A>` (the
`.into()` at the end of `plan`): a freshly planned action is Incomplete. -/
def StatefulAction.into {A : Type} (a : A) : StatefulAction A :=
  ⟨a, ActionState.Incomplete⟩

/-- Model of the struct `FetchAndUnpackNix`. -/
structure FetchAndUnpackNix where
  distribution : Distribution
  url_or_path : Option UrlOrPath
  dest : String
  proxy : Option Url
  ssl_cert_file : Option String
deriving DecidableEq, Repr

/-- Model of `FetchAndUnpackNix::action_tag`. -/
def FetchAndUnpackNix.action_tag : String := "fetch_and_unpack_nix"

/-- Model of `Self::error`: pair this action's tag with an error kind. -/
def FetchAndUnpackNix.error (kind : ActionErrorKind) : ActionError :=
  ⟨FetchAndUnpackNix.action_tag, kind⟩

/-- Effect events an execution can perform, in the order performed. -/
inductive Event where
  | certParse (p : String)
  | httpRequest (u : Url) (proxy : Option Url) (cert : Option Certificate)
  | fsRead (p : String)
  | fsExistsCheck (p : String)
  | fsRemove (p : String)
  | fsUnpack (dest : String) (archive : Bytes)
deriving DecidableEq, Repr

/-- Directory contents at the destination: a list of (relative path, file
bytes) entries. -/
abbrev Entries := List (String × Bytes)

/-- Model of unpacking a tar archive's entries into a possibly pre-existing
directory: tar merges into what is already there, overwriting entries the
archive also carries and keeping the rest. -/
def unpackInto (existing : Option Entries) (archive : Entries) : Entries :=
  match existing with
  | none => archive
  | some old =>
      old.filter (fun e => archive.all (fun a => a.1 ≠ e.1)) ++ archive

/-- Argument of the recursive-remover collaborator: behaviour when the path
is already missing. -/
inductive OnMissing where
  | Error
  | Ignore
deriving DecidableEq, Repr

/-- The `ENOENT` error a remover reports for a missing path when asked to
treat missing as an error. -/
def notFoundErr : IoError := ⟨2⟩

/-- Modelled from the spec: the recursive directory remover collaborator
`(path, on_missing: {Error|Ignore}) -> Result<(), IoError>`. `present` is
whether the path still exists at removal time and `failure` a possible
removal failure of a present tree. -/
def remove_dir_all (present : Bool) (failure : Option IoError)
    (onMissing : OnMissing) : Except IoError Unit :=
  if present then
    match failure with
    | some e => Except.error e
    | none => Except.ok ()
  else
    match onMissing with
    | OnMissing.Ignore => Except.ok ()
    | OnMissing.Error => Except.error notFoundErr

/-- Oracle for every external effect an execution consults, plus the
filesystem situation around the destination. `destGoneAtRemove` models a
concurrent removal of the destination between the `exists()` check and the
`remove_dir_all` call. -/
structure World where
  parseSslCert : String → Except CertError Certificate
  proxyAll : Url → Except ReqwestError Unit
  clientBuild : Except ReqwestError Unit
  reqBuild : Url → Except ReqwestError Unit
  httpGet : Url → Except ReqwestError Unit
  resBytes : Url → Except ReqwestError Bytes
  fsRead : String → Except IoError Bytes
  destInit : Option Entries
  destGoneAtRemove : Bool
  removeFailure : Option IoError
  decodeArchive : Bytes → Except IoError Entries
  leftoverOnUnpackFailure : Option Entries

/-- Model of `FetchAndUnpackNix::plan` after the URL-scheme and proxy-scheme
checks: parse the certificate file if one is configured, then construct the
stateful action. -/
def planCertStep (w : World) (distribution : Distribution)
    (url_or_path : Option UrlOrPath) (dest : String) (proxy : Option Url)
    (ssl_cert_file : Option String) :
    Except ActionError (StatefulAction FetchAndUnpackNix) × List Event :=
  match ssl_cert_file with
  | some certFile =>
      match w.parseSslCert certFile with
      | Except.error e =>
          (Except.error (FetchAndUnpackNix.error (ActionErrorKind.CertificateError e)),
            [Event.certParse certFile])
      | Except.ok _ =>
          (Except.ok (StatefulAction.into
              ⟨distribution, url_or_path, dest, proxy, ssl_cert_file⟩),
            [Event.certParse certFile])
  | none =>
      (Except.ok (StatefulAction.into
          ⟨distribution, url_or_path, dest, proxy, ssl_cert_file⟩), [])

/-- Model of `FetchAndUnpackNix::plan` after the URL-scheme check: validate
the proxy scheme, then continue with the certificate step. -/
def planProxyStep (w : World) (distribution : Distribution)
    (url_or_path : Option UrlOrPath) (dest : String) (proxy : Option Url)
    (ssl_cert_file : Option String) :
    Except ActionError (StatefulAction FetchAndUnpackNix) × List Event :=
  match proxy with
  | some proxyUrl =>
      match proxyUrl.scheme with
      | "https" => planCertStep w distribution url_or_path dest proxy ssl_cert_file
      | "http" => planCertStep w distribution url_or_path dest proxy ssl_cert_file
      | "socks5" => planCertStep w distribution url_or_path dest proxy ssl_cert_file
      | _ =>
          (Except.error (FetchAndUnpackNix.error
              FetchUrlError.UnknownProxyScheme.toKind), [])
  | none => planCertStep w distribution url_or_path dest proxy ssl_cert_file

/-- Model of `FetchAndUnpackNix::plan`: validate the locator's URL scheme,
the proxy scheme, and the certificate file, in that order, then construct
the action. -/
def FetchAndUnpackNix.plan (w : World) (distribution : Distribution)
    (url_or_path : Option UrlOrPath) (dest : String) (proxy : Option Url)
    (ssl_cert_file : Option String) :
    Except ActionError (StatefulAction FetchAndUnpackNix) × List Event :=
  match url_or_path with
  | some (UrlOrPath.url u) =>
      match u.scheme with
      | "https" => planProxyStep w distribution url_or_path dest proxy ssl_cert_file
      | "http" => planProxyStep w distribution url_or_path dest proxy ssl_cert_file
      | "file" => planProxyStep w distribution url_or_path dest proxy ssl_cert_file
      | _ =>
          (Except.error (FetchAndUnpackNix.error ActionErrorKind.UnknownUrlScheme), [])
  | _ => planProxyStep w distribution url_or_path dest proxy ssl_cert_file

/-- Model of the https/http fetch after proxy and certificate configuration:
build the client, build the GET request, execute it, and read the body.
Every transport failure maps to the `Reqwest` error kind. The
`httpRequest` event is emitted once the request is actually executed. -/
def httpsResolveClient (self : FetchAndUnpackNix) (w : World) (url : Url)
    (cert : Option Certificate) : Except ActionError Bytes × List Event :=
  match w.clientBuild with
  | Except.error e =>
      (Except.error (FetchAndUnpackNix.error (ActionErrorKind.Reqwest e)), [])
  | Except.ok () =>
      match w.reqBuild url with
      | Except.error e =>
          (Except.error (FetchAndUnpackNix.error (ActionErrorKind.Reqwest e)), [])
      | Except.ok () =>
          match w.httpGet url with
          | Except.error e =>
              (Except.error (FetchAndUnpackNix.error (ActionErrorKind.Reqwest e)),
                [Event.httpRequest url self.proxy cert])
          | Except.ok () =>
              match w.resBytes url with
              | Except.error e =>
                  (Except.error (FetchAndUnpackNix.error (ActionErrorKind.Reqwest e)),
                    [Event.httpRequest url self.proxy cert])
              | Except.ok b => (Except.ok b, [Event.httpRequest url self.proxy cert])

/-- Model of the https/http fetch after the proxy configuration step: parse
the optional extra root certificate (reading the certificate file), then
continue with the client. -/
def httpsResolveCert (self : FetchAndUnpackNix) (w : World) (url : Url) :
    Except ActionError Bytes × List Event :=
  match self.ssl_cert_file with
  | some certFile =>
      match w.parseSslCert certFile with
      | Except.error e =>
          (Except.error (FetchAndUnpackNix.error (ActionErrorKind.CertificateError e)),
            [Event.certParse certFile])
      | Except.ok cert =>
          let rest := httpsResolveClient self w url (some cert)
          (rest.1, Event.certParse certFile :: rest.2)
  | none => httpsResolveClient self w url none

/-- Model of the https/http arm of `execute`'s byte resolution: configure the
optional proxy (failure maps to `Reqwest`), then certificate, then client. -/
def httpsResolve (self : FetchAndUnpackNix) (w : World) (url : Url) :
    Except ActionError Bytes × List Event :=
  match self.proxy with
  | some proxyUrl =>
      match w.proxyAll proxyUrl with
      | Except.error e =>
          (Except.error (FetchAndUnpackNix.error (ActionErrorKind.Reqwest e)), [])
      | Except.ok () => httpsResolveCert self w url
  | none => httpsResolveCert self w url

/-- Model of the `tokio::fs::read` arms of `execute`'s byte resolution
(identical in the `"file"`-scheme and bare-path arms of the source): read the
local path, mapping an I/O failure to the `Read` kind carrying the path. -/
def readFileStep (w : World) (p : String) : Except ActionError Bytes × List Event :=
  match w.fsRead p with
  | Except.error e =>
      (Except.error (FetchAndUnpackNix.error (ActionErrorKind.Read p e)),
        [Event.fsRead p])
  | Except.ok b => (Except.ok b, [Event.fsRead p])

/-- Model of the `let bytes = match self.distribution.tarball_location_or(..)`
block of `execute`: resolve the archive bytes from the embedded payload, a
URL (https/http fetched, file read from its path), or a bare path. -/
def resolveBytes (self : FetchAndUnpackNix) (w : World) :
    Except ActionError Bytes × List Event :=
  match self.distribution.tarball_location_or self.url_or_path with
  | TarballLocation.InMemory _ payload => (Except.ok payload, [])
  | TarballLocation.UrlOrPath (UrlOrPath.url url) =>
      match url.scheme with
      | "https" => httpsResolve self w url
      | "http" => httpsResolve self w url
      | "file" => readFileStep w url.urlPath
      | _ => (Except.error (FetchAndUnpackNix.error ActionErrorKind.UnknownUrlScheme), [])
  | TarballLocation.UrlOrPath (UrlOrPath.path p) => readFileStep w p

/-- Outcome of an execution: the result, the ordered effect trace, and the
destination directory's contents afterwards (`none` = absent). -/
structure ExecOut where
  result : Except ActionError Unit
  events : List Event
  destAfter : Option Entries
deriving Repr

/-- Model of the final extraction step of `execute`: decompress and unpack
the archive into the destination; failure maps to the custom
`FetchUrlError::Unarchive` kind, leaving whatever partial contents the
failed unpack wrote. -/
def unpackStep (self : FetchAndUnpackNix) (w : World) (b : Bytes)
    (destNow : Option Entries) (evs : List Event) : ExecOut :=
  match w.decodeArchive b with
  | Except.error e =>
      ⟨Except.error (FetchAndUnpackNix.error (FetchUrlError.Unarchive e).toKind),
        evs ++ [Event.fsUnpack self.dest b], w.leftoverOnUnpackFailure⟩
  | Except.ok es =>
      ⟨Except.ok (), evs ++ [Event.fsUnpack self.dest b],
        some (unpackInto destNow es)⟩

/-- Model of the destination-handling and extraction half of `execute`: if
the destination exists, remove it recursively with `OnMissing::Ignore`
(tolerating a concurrent removal); failure maps to the `Remove` kind;
then unpack into the (now absent) destination. -/
def unpackPhase (self : FetchAndUnpackNix) (w : World) (b : Bytes) : ExecOut :=
  match w.destInit with
  | some old =>
      match remove_dir_all (!w.destGoneAtRemove) w.removeFailure OnMissing.Ignore with
      | Except.error e =>
          ⟨Except.error (FetchAndUnpackNix.error (ActionErrorKind.Remove self.dest e)),
            [Event.fsExistsCheck self.dest, Event.fsRemove self.dest],
            if w.destGoneAtRemove then none else some old⟩
      | Except.ok () =>
          unpackStep self w b none
            [Event.fsExistsCheck self.dest, Event.fsRemove self.dest]
  | none => unpackStep self w b none [Event.fsExistsCheck self.dest]

/-- Model of `FetchAndUnpackNix::execute`: resolve the archive bytes, then
clean the destination and extract into it. -/
def FetchAndUnpackNix.execute (self : FetchAndUnpackNix) (w : World) : ExecOut :=
  match resolveBytes self w with
  | (Except.error e, evs) => ⟨Except.error e, evs, w.destInit⟩
  | (Except.ok b, evs) =>
      let out := unpackPhase self w b
      ⟨out.result, evs ++ out.events, out.destAfter⟩

/-- Model of `FetchAndUnpackNix::revert`: `Ok(())`, no effects at all,
whatever the instance and whatever the world (prior history) looks like. -/
def FetchAndUnpackNix.revert (_self : FetchAndUnpackNix) (_w : World) :
    Except ActionError Unit × List Event :=
  (Except.ok (), [])

/-- Model of `ActionDescription` with its `new` constructor. -/
structure ActionDescription where
  description : String
  explanation : List String
deriving DecidableEq, Repr

/-- Model of `ActionDescription::new`. -/
def ActionDescription.new (d : String) (e : List String) : ActionDescription :=
  ⟨d, e⟩

/-- Model of `FetchAndUnpackNix::tracing_synopsis`. -/
def FetchAndUnpackNix.tracing_synopsis (self : FetchAndUnpackNix) : String :=
  match self.distribution.tarball_location_or self.url_or_path with
  | TarballLocation.UrlOrPath uop =>
      "Fetch `" ++ uop.render ++ "` to `" ++ self.dest ++ "`"
  | TarballLocation.InMemory provenance _ =>
      "Extract the bundled Nix (originally from " ++ provenance ++ ") to `"
        ++ self.dest ++ "`"

/-- Model of `FetchAndUnpackNix::execute_description`: exactly one entry,
the tracing synopsis with an empty explanation. -/
def FetchAndUnpackNix.execute_description (self : FetchAndUnpackNix) :
    List ActionDescription :=
  [ActionDescription.new self.tracing_synopsis []]

/-- Model of `FetchAndUnpackNix::revert_description`: deliberately empty. -/
def FetchAndUnpackNix.revert_description (_self : FetchAndUnpackNix) :
    List ActionDescription :=
  []

/-- State of the tokio broadcast channel underlying the cancellation bus:
the total number of stop notifications sent so far. Values are unit, so the
count is the whole state. -/
structure BroadcastState where
  sent : Nat
deriving DecidableEq, Repr

/-- A subscribed receiver's position: how many notifications it has
consumed (or skipped past after lagging). -/
structure BroadcastReceiver where
  readPos : Nat
deriving DecidableEq, Repr

/-- Outcome of one `recv` call on a broadcast receiver. -/
inductive RecvOutcome where
  | pending
  | value
  | lagged (missed : Nat)
deriving DecidableEq, Repr

/-- The capacity `signal_channel` passes to `broadcast::channel(100)`. -/
def signalChannelCapacity : Nat := 100

/-- Model of `Sender::send` on the broadcast channel (payload is unit). -/
def broadcastSend (s : BroadcastState) : BroadcastState :=
  ⟨s.sent + 1⟩

/-- Model of `Receiver::recv` on a bounded broadcast channel: nothing new is
pending; or the receiver is within `cap` of the head and takes the next
value; or it lagged more than `cap` behind, in which case the overwritten
notifications are coalesced into a lag report and the receiver skips to the
oldest retained value. -/
def broadcastRecv (cap : Nat) (s : BroadcastState) (r : BroadcastReceiver) :
    RecvOutcome × BroadcastReceiver :=
  if s.sent ≤ r.readPos then (RecvOutcome.pending, r)
  else if s.sent - r.readPos ≤ cap then (RecvOutcome.value, ⟨r.readPos + 1⟩)
  else (RecvOutcome.lagged (s.sent - r.readPos - cap), ⟨s.sent - cap⟩)

/-- The OS signals the background listener subscribes to. -/
inductive OsSignal where
  | interrupt
  | terminate
deriving DecidableEq, Repr

/-- Model of one iteration of `signal_channel`'s background loop: on either
SIGINT or SIGTERM, republish a stop notification on the bus. -/
def signalHandlerStep (s : BroadcastState) (_sig : OsSignal) : BroadcastState :=
  broadcastSend s

/-- The background listener over a whole arrival sequence of OS signals. -/
def signalHandlerRun (s : BroadcastState) (sigs : List OsSignal) : BroadcastState :=
  sigs.foldl signalHandlerStep s

/-- Model of `signal_channel`: a fresh broadcast channel of capacity 100 with
its first receiver subscribed at position 0. -/
def signal_channel : BroadcastState × BroadcastReceiver :=
  (⟨0⟩, ⟨0⟩)

/-- Model of `Sender::subscribe`: a new receiver starts at the current head
and sees only notifications sent from then on. -/
def broadcastSubscribe (s : BroadcastState) : BroadcastReceiver :=
  ⟨s.sent⟩

/-- The URL-scheme whitelist of `plan` (the `"https" | "http" | "file"`
match arms), as a predicate. -/
def urlSchemeOkP (s : String) : Prop :=
  s = "https" ∨ s = "http" ∨ s = "file"

/-- The proxy-scheme whitelist of `plan` (the `"https" | "http" | "socks5"`
match arms), as a predicate on the optional proxy. -/
def proxyOkP : Option Url → Prop
  | none => True
  | some p => p.scheme = "https" ∨ p.scheme = "http" ∨ p.scheme = "socks5"

/-- The configured certificate file, if any, parses in world `w`. -/
def certOkP (w : World) : Option String → Prop
  | none => True
  | some f => ∃ c, w.parseSslCert f = Except.ok c

/-- The locator, if it is a URL, has a whitelisted scheme — exactly what the
first check of `plan` lets through. -/
def locatorOkP : Option UrlOrPath → Prop
  | some (UrlOrPath.url u) => urlSchemeOkP u.scheme
  | _ => True

theorem planCertStep_succeeds (w : World) (d : Distribution)
    (uop : Option UrlOrPath) (dest : String) (proxy : Option Url)
    (cert : Option String) (h : certOkP w cert) :
    (planCertStep w d uop dest proxy cert).1 =
      Except.ok (StatefulAction.into ⟨d, uop, dest, proxy, cert⟩) := by
  cases cert with
  | none => rfl
  | some f =>
      obtain ⟨c, hc⟩ := h
      simp only [planCertStep]
      rw [hc]

theorem planCertStep_ok (w : World) (d : Distribution) (uop : Option UrlOrPath)
    (dest : String) (proxy : Option Url) (cert : Option String)
    (sa : StatefulAction FetchAndUnpackNix)
    (h : (planCertStep w d uop dest proxy cert).1 = Except.ok sa) :
    sa = StatefulAction.into ⟨d, uop, dest, proxy, cert⟩ ∧ certOkP w cert := by
  cases cert with
  | none =>
      simp only [planCertStep, Except.ok.injEq] at h
      exact ⟨h.symm, trivial⟩
  | some f =>
      simp only [planCertStep] at h
      cases hc : w.parseSslCert f with
      | error e => rw [hc] at h; simp at h
      | ok c =>
          rw [hc] at h
          exact ⟨(Except.ok.inj h).symm, ⟨c, hc⟩⟩

theorem planCertStep_events (w : World) (d : Distribution)
    (uop : Option UrlOrPath) (dest : String) (proxy : Option Url)
    (cert : Option String) (e : Event)
    (h : e ∈ (planCertStep w d uop dest proxy cert).2) :
    ∃ p, e = Event.certParse p := by
  cases cert with
  | none => simp [planCertStep] at h
  | some f =>
      simp only [planCertStep] at h
      cases hc : w.parseSslCert f with
      | error e2 => rw [hc] at h; simp at h; exact ⟨f, h⟩
      | ok c => rw [hc] at h; simp at h; exact ⟨f, h⟩

theorem planProxyStep_succeeds (w : World) (d : Distribution)
    (uop : Option UrlOrPath) (dest : String) (proxy : Option Url)
    (cert : Option String) (hp : proxyOkP proxy) (hc : certOkP w cert) :
    (planProxyStep w d uop dest proxy cert).1 =
      Except.ok (StatefulAction.into ⟨d, uop, dest, proxy, cert⟩) := by
  cases proxy with
  | none => exact planCertStep_succeeds w d uop dest none cert hc
  | some p =>
      simp only [planProxyStep]
      rcases hp with h | h | h <;> rw [h] <;>
        exact planCertStep_succeeds w d uop dest (some p) cert hc

theorem planProxyStep_fails (w : World) (d : Distribution)
    (uop : Option UrlOrPath) (dest : String) (p : Url) (cert : Option String)
    (hp : ¬ proxyOkP (some p)) :
    planProxyStep w d uop dest (some p) cert =
      (Except.error (FetchAndUnpackNix.error
        (ActionErrorKind.Custom FetchUrlError.UnknownProxyScheme)), []) := by
  simp only [planProxyStep]
  split
  · rename_i hs; exact absurd (Or.inl hs) hp
  · rename_i hs; exact absurd (Or.inr (Or.inl hs)) hp
  · rename_i hs; exact absurd (Or.inr (Or.inr hs)) hp
  · rfl

theorem planProxyStep_ok (w : World) (d : Distribution) (uop : Option UrlOrPath)
    (dest : String) (proxy : Option Url) (cert : Option String)
    (sa : StatefulAction FetchAndUnpackNix)
    (h : (planProxyStep w d uop dest proxy cert).1 = Except.ok sa) :
    sa = StatefulAction.into ⟨d, uop, dest, proxy, cert⟩ ∧ proxyOkP proxy ∧
      certOkP w cert := by
  cases proxy with
  | none =>
      obtain ⟨h1, h2⟩ := planCertStep_ok w d uop dest none cert sa h
      exact ⟨h1, trivial, h2⟩
  | some p =>
      simp only [planProxyStep] at h
      split at h
      · rename_i hs
        obtain ⟨h1, h2⟩ := planCertStep_ok w d uop dest (some p) cert sa h
        exact ⟨h1, Or.inl hs, h2⟩
      · rename_i hs
        obtain ⟨h1, h2⟩ := planCertStep_ok w d uop dest (some p) cert sa h
        exact ⟨h1, Or.inr (Or.inl hs), h2⟩
      · rename_i hs
        obtain ⟨h1, h2⟩ := planCertStep_ok w d uop dest (some p) cert sa h
        exact ⟨h1, Or.inr (Or.inr hs), h2⟩
      · simp at h

theorem planProxyStep_events (w : World) (d : Distribution)
    (uop : Option UrlOrPath) (dest : String) (proxy : Option Url)
    (cert : Option String) (e : Event)
    (h : e ∈ (planProxyStep w d uop dest proxy cert).2) :
    ∃ p, e = Event.certParse p := by
  cases proxy with
  | none => exact planCertStep_events w d uop dest none cert e h
  | some p =>
      simp only [planProxyStep] at h
      split at h
      · exact planCertStep_events w d uop dest (some p) cert e h
      · exact planCertStep_events w d uop dest (some p) cert e h
      · exact planCertStep_events w d uop dest (some p) cert e h
      · simp at h

theorem plan_succeeds (w : World) (d : Distribution) (uop : Option UrlOrPath)
    (dest : String) (proxy : Option Url) (cert : Option String)
    (hl : locatorOkP uop) (hp : proxyOkP proxy) (hc : certOkP w cert) :
    (FetchAndUnpackNix.plan w d uop dest proxy cert).1 =
      Except.ok (StatefulAction.into ⟨d, uop, dest, proxy, cert⟩) := by
  cases uop with
  | none => exact planProxyStep_succeeds w d none dest proxy cert hp hc
  | some u =>
      cases u with
      | path p => exact planProxyStep_succeeds w d (some (UrlOrPath.path p)) dest proxy cert hp hc
      | url u =>
          simp only [FetchAndUnpackNix.plan]
          rcases hl with h | h | h <;> rw [h] <;>
            exact planProxyStep_succeeds w d (some (UrlOrPath.url u)) dest proxy cert hp hc

theorem plan_url_fails (w : World) (d : Distribution) (u : Url) (dest : String)
    (proxy : Option Url) (cert : Option String) (hl : ¬ urlSchemeOkP u.scheme) :
    FetchAndUnpackNix.plan w d (some (UrlOrPath.url u)) dest proxy cert =
      (Except.error (FetchAndUnpackNix.error ActionErrorKind.UnknownUrlScheme), []) := by
  simp only [FetchAndUnpackNix.plan]
  split
  · rename_i hs; exact absurd (Or.inl hs) hl
  · rename_i hs; exact absurd (Or.inr (Or.inl hs)) hl
  · rename_i hs; exact absurd (Or.inr (Or.inr hs)) hl
  · rfl

theorem plan_ok (w : World) (d : Distribution) (uop : Option UrlOrPath)
    (dest : String) (proxy : Option Url) (cert : Option String)
    (sa : StatefulAction FetchAndUnpackNix)
    (h : (FetchAndUnpackNix.plan w d uop dest proxy cert).1 = Except.ok sa) :
    sa = StatefulAction.into ⟨d, uop, dest, proxy, cert⟩ ∧ locatorOkP uop ∧
      proxyOkP proxy ∧ certOkP w cert := by
  cases uop with
  | none =>
      obtain ⟨h1, h2, h3⟩ := planProxyStep_ok w d none dest proxy cert sa h
      exact ⟨h1, trivial, h2, h3⟩
  | some u =>
      cases u with
      | path p =>
          obtain ⟨h1, h2, h3⟩ :=
            planProxyStep_ok w d (some (UrlOrPath.path p)) dest proxy cert sa h
          exact ⟨h1, trivial, h2, h3⟩
      | url u =>
          simp only [FetchAndUnpackNix.plan] at h
          split at h
          · rename_i hs
            obtain ⟨h1, h2, h3⟩ :=
              planProxyStep_ok w d (some (UrlOrPath.url u)) dest proxy cert sa h
            exact ⟨h1, Or.inl hs, h2, h3⟩
          · rename_i hs
            obtain ⟨h1, h2, h3⟩ :=
              planProxyStep_ok w d (some (UrlOrPath.url u)) dest proxy cert sa h
            exact ⟨h1, Or.inr (Or.inl hs), h2, h3⟩
          · rename_i hs
            obtain ⟨h1, h2, h3⟩ :=
              planProxyStep_ok w d (some (UrlOrPath.url u)) dest proxy cert sa h
            exact ⟨h1, Or.inr (Or.inr hs), h2, h3⟩
          · simp at h

theorem plan_events (w : World) (d : Distribution) (uop : Option UrlOrPath)
    (dest : String) (proxy : Option Url) (cert : Option String) (e : Event)
    (h : e ∈ (FetchAndUnpackNix.plan w d uop dest proxy cert).2) :
    ∃ p, e = Event.certParse p := by
  cases uop with
  | none => exact planProxyStep_events w d none dest proxy cert e h
  | some u =>
      cases u with
      | path p => exact planProxyStep_events w d (some (UrlOrPath.path p)) dest proxy cert e h
      | url u =>
          simp only [FetchAndUnpackNix.plan] at h
          split at h
          · exact planProxyStep_events w d (some (UrlOrPath.url u)) dest proxy cert e h
          · exact planProxyStep_events w d (some (UrlOrPath.url u)) dest proxy cert e h
          · exact planProxyStep_events w d (some (UrlOrPath.url u)) dest proxy cert e h
          · simp at h

theorem httpsResolveClient_kinds (self : FetchAndUnpackNix) (w : World)
    (url : Url) (cert : Option Certificate) :
    (∃ b, (httpsResolveClient self w url cert).1 = Except.ok b) ∨
    (∃ e, (httpsResolveClient self w url cert).1 =
      Except.error (FetchAndUnpackNix.error (ActionErrorKind.Reqwest e))) := by
  unfold httpsResolveClient
  rcases w.clientBuild with e | ⟨⟩
  · exact Or.inr ⟨e, rfl⟩
  · rcases w.reqBuild url with e | ⟨⟩
    · exact Or.inr ⟨e, rfl⟩
    · rcases w.httpGet url with e | ⟨⟩
      · exact Or.inr ⟨e, rfl⟩
      · rcases w.resBytes url with e | b
        · exact Or.inr ⟨e, rfl⟩
        · exact Or.inl ⟨b, rfl⟩

theorem httpsResolveCert_kinds (self : FetchAndUnpackNix) (w : World)
    (url : Url) :
    (∃ b, (httpsResolveCert self w url).1 = Except.ok b) ∨
    (∃ e, (httpsResolveCert self w url).1 =
      Except.error (FetchAndUnpackNix.error (ActionErrorKind.Reqwest e))) ∨
    (∃ e, (httpsResolveCert self w url).1 =
      Except.error (FetchAndUnpackNix.error (ActionErrorKind.CertificateError e))) := by
  obtain ⟨d, uop, dest, proxy, cert⟩ := self
  cases cert with
  | none =>
      rcases httpsResolveClient_kinds ⟨d, uop, dest, proxy, none⟩ w url none with
        ⟨b, hb⟩ | ⟨e, he⟩
      · exact Or.inl ⟨b, hb⟩
      · exact Or.inr (Or.inl ⟨e, he⟩)
  | some f =>
      simp only [httpsResolveCert]
      rcases w.parseSslCert f with e | c
      · exact Or.inr (Or.inr ⟨e, rfl⟩)
      · rcases httpsResolveClient_kinds ⟨d, uop, dest, proxy, some f⟩ w url (some c) with
          ⟨b, hb⟩ | ⟨e, he⟩
        · exact Or.inl ⟨b, hb⟩
        · exact Or.inr (Or.inl ⟨e, he⟩)

theorem httpsResolve_kinds (self : FetchAndUnpackNix) (w : World) (url : Url) :
    (∃ b, (httpsResolve self w url).1 = Except.ok b) ∨
    (∃ e, (httpsResolve self w url).1 =
      Except.error (FetchAndUnpackNix.error (ActionErrorKind.Reqwest e))) ∨
    (∃ e, (httpsResolve self w url).1 =
      Except.error (FetchAndUnpackNix.error (ActionErrorKind.CertificateError e))) := by
  obtain ⟨d, uop, dest, proxy, cert⟩ := self
  cases proxy with
  | none => exact httpsResolveCert_kinds ⟨d, uop, dest, none, cert⟩ w url
  | some p =>
      simp only [httpsResolve]
      rcases w.proxyAll p with e | ⟨⟩
      · exact Or.inr (Or.inl ⟨e, rfl⟩)
      · exact httpsResolveCert_kinds ⟨d, uop, dest, some p, cert⟩ w url

theorem readFileStep_kinds (w : World) (p : String) :
    (∃ b, (readFileStep w p).1 = Except.ok b) ∨
    (∃ e, (readFileStep w p).1 =
      Except.error (FetchAndUnpackNix.error (ActionErrorKind.Read p e))) := by
  unfold readFileStep
  rcases w.fsRead p with e | b
  · exact Or.inr ⟨e, rfl⟩
  · exact Or.inl ⟨b, rfl⟩

theorem resolveBytes_cases (self : FetchAndUnpackNix) (w : World) :
    (∃ prov payload,
        self.distribution.tarball_location_or self.url_or_path =
          TarballLocation.InMemory prov payload ∧
        resolveBytes self w = (Except.ok payload, [])) ∨
    (∃ u, self.distribution.tarball_location_or self.url_or_path =
          TarballLocation.UrlOrPath (UrlOrPath.url u) ∧
        (u.scheme = "https" ∨ u.scheme = "http") ∧
        resolveBytes self w = httpsResolve self w u) ∨
    (∃ u, self.distribution.tarball_location_or self.url_or_path =
          TarballLocation.UrlOrPath (UrlOrPath.url u) ∧
        u.scheme = "file" ∧
        resolveBytes self w = readFileStep w u.urlPath) ∨
    (∃ u, self.distribution.tarball_location_or self.url_or_path =
          TarballLocation.UrlOrPath (UrlOrPath.url u) ∧
        ¬ urlSchemeOkP u.scheme ∧
        resolveBytes self w =
          (Except.error (FetchAndUnpackNix.error ActionErrorKind.UnknownUrlScheme), [])) ∨
    (∃ p, self.distribution.tarball_location_or self.url_or_path =
          TarballLocation.UrlOrPath (UrlOrPath.path p) ∧
        resolveBytes self w = readFileStep w p) := by
  unfold resolveBytes
  split
  · rename_i prov payload heq
    exact Or.inl ⟨prov, payload, heq, rfl⟩
  · rename_i u heq
    split
    · rename_i hs
      exact Or.inr (Or.inl ⟨u, heq, Or.inl hs, rfl⟩)
    · rename_i hs
      exact Or.inr (Or.inl ⟨u, heq, Or.inr hs, rfl⟩)
    · rename_i hs
      exact Or.inr (Or.inr (Or.inl ⟨u, heq, hs, rfl⟩))
    · rename_i h1 h2 h3
      refine Or.inr (Or.inr (Or.inr (Or.inl ⟨u, heq, ?_, rfl⟩)))
      rintro (hc | hc | hc)
      · exact h1 hc
      · exact h2 hc
      · exact h3 hc
  · rename_i p heq
    exact Or.inr (Or.inr (Or.inr (Or.inr ⟨p, heq, rfl⟩)))

theorem unpackStep_result (self : FetchAndUnpackNix) (w : World) (b : Bytes)
    (destNow : Option Entries) (evs : List Event) :
    ((unpackStep self w b destNow evs).result = Except.ok () ∧
      ∃ es, w.decodeArchive b = Except.ok es ∧
        (unpackStep self w b destNow evs).destAfter = some (unpackInto destNow es) ∧
        (unpackStep self w b destNow evs).events = evs ++ [Event.fsUnpack self.dest b]) ∨
    (∃ e, w.decodeArchive b = Except.error e ∧
      (unpackStep self w b destNow evs).result =
        Except.error (FetchAndUnpackNix.error
          (ActionErrorKind.Custom (FetchUrlError.Unarchive e))) ∧
      (unpackStep self w b destNow evs).events = evs ++ [Event.fsUnpack self.dest b]) := by
  unfold unpackStep
  rcases w.decodeArchive b with e | es
  · exact Or.inr ⟨e, rfl, rfl, rfl⟩
  · exact Or.inl ⟨rfl, es, rfl, rfl, rfl⟩

theorem unpackPhase_cases (self : FetchAndUnpackNix) (w : World) (b : Bytes) :
    (w.destInit = none ∧
      unpackPhase self w b = unpackStep self w b none [Event.fsExistsCheck self.dest]) ∨
    (∃ old, w.destInit = some old ∧
      remove_dir_all (!w.destGoneAtRemove) w.removeFailure OnMissing.Ignore =
        Except.ok () ∧
      unpackPhase self w b =
        unpackStep self w b none
          [Event.fsExistsCheck self.dest, Event.fsRemove self.dest]) ∨
    (∃ old e, w.destInit = some old ∧
      remove_dir_all (!w.destGoneAtRemove) w.removeFailure OnMissing.Ignore =
        Except.error e ∧
      (unpackPhase self w b).result =
        Except.error (FetchAndUnpackNix.error (ActionErrorKind.Remove self.dest e)) ∧
      (unpackPhase self w b).events =
        [Event.fsExistsCheck self.dest, Event.fsRemove self.dest]) := by
  unfold unpackPhase
  rcases w.destInit with _ | old
  · exact Or.inl ⟨rfl, rfl⟩
  · rcases remove_dir_all (!w.destGoneAtRemove) w.removeFailure OnMissing.Ignore with
      e | ⟨⟩
    · exact Or.inr (Or.inr ⟨old, e, rfl, rfl, rfl, rfl⟩)
    · exact Or.inr (Or.inl ⟨old, rfl, rfl, rfl⟩)

theorem execute_cases (self : FetchAndUnpackNix) (w : World) :
    (∃ e, (resolveBytes self w).1 = Except.error e ∧
      self.execute w = ⟨Except.error e, (resolveBytes self w).2, w.destInit⟩) ∨
    (∃ b, (resolveBytes self w).1 = Except.ok b ∧
      self.execute w = ⟨(unpackPhase self w b).result,
        (resolveBytes self w).2 ++ (unpackPhase self w b).events,
        (unpackPhase self w b).destAfter⟩) := by
  unfold FetchAndUnpackNix.execute
  rcases resolveBytes self w with ⟨e | b, evs⟩
  · exact Or.inl ⟨e, rfl, rfl⟩
  · exact Or.inr ⟨b, rfl, rfl⟩

theorem unpackPhase_result_kinds (self : FetchAndUnpackNix) (w : World) (b : Bytes) :
    (unpackPhase self w b).result = Except.ok () ∨
    (∃ e, (unpackPhase self w b).result =
      Except.error (FetchAndUnpackNix.error (ActionErrorKind.Remove self.dest e))) ∨
    (∃ e, (unpackPhase self w b).result =
      Except.error (FetchAndUnpackNix.error
        (ActionErrorKind.Custom (FetchUrlError.Unarchive e)))) := by
  rcases unpackPhase_cases self w b with ⟨_, hu⟩ | ⟨old, _, _, hu⟩ | ⟨old, e, _, _, hres, _⟩
  · rw [hu]
    rcases unpackStep_result self w b none [Event.fsExistsCheck self.dest] with
      ⟨hok, _⟩ | ⟨e, _, herr, _⟩
    · exact Or.inl hok
    · exact Or.inr (Or.inr ⟨e, herr⟩)
  · rw [hu]
    rcases unpackStep_result self w b none
        [Event.fsExistsCheck self.dest, Event.fsRemove self.dest] with
      ⟨hok, _⟩ | ⟨e, _, herr, _⟩
    · exact Or.inl hok
    · exact Or.inr (Or.inr ⟨e, herr⟩)
  · exact Or.inr (Or.inl ⟨e, hres⟩)

theorem execute_ok (self : FetchAndUnpackNix) (w : World)
    (h : (self.execute w).result = Except.ok ()) :
    ∃ b es, (resolveBytes self w).1 = Except.ok b ∧
      w.decodeArchive b = Except.ok es ∧
      (self.execute w).destAfter = some es := by
  rcases execute_cases self w with ⟨e, hres, hexec⟩ | ⟨b, hres, hexec⟩
  · rw [hexec] at h; simp at h
  · rw [hexec] at h
    simp only at h
    rcases unpackPhase_cases self w b with ⟨_, hu⟩ | ⟨old, _, _, hu⟩ | ⟨old, e, _, _, hres2, _⟩
    · rw [hu] at h
      rcases unpackStep_result self w b none [Event.fsExistsCheck self.dest] with
        ⟨_, es, hdec, hdest, _⟩ | ⟨e, _, herr, _⟩
      · refine ⟨b, es, hres, hdec, ?_⟩
        rw [hexec]
        simp only
        rw [hu, hdest]
        rfl
      · rw [herr] at h; simp at h
    · rw [hu] at h
      rcases unpackStep_result self w b none
          [Event.fsExistsCheck self.dest, Event.fsRemove self.dest] with
        ⟨_, es, hdec, hdest, _⟩ | ⟨e, _, herr, _⟩
      · refine ⟨b, es, hres, hdec, ?_⟩
        rw [hexec]
        simp only
        rw [hu, hdest]
        rfl
      · rw [herr] at h; simp at h
    · rw [hres2] at h; simp at h

theorem resolveBytes_no_custom (self : FetchAndUnpackNix) (w : World)
    (fe : FetchUrlError) :
    (resolveBytes self w).1 ≠
      Except.error (FetchAndUnpackNix.error (ActionErrorKind.Custom fe)) := by
  intro h
  rcases resolveBytes_cases self w with
    ⟨prov, payload, _, hcase⟩ | ⟨u, _, _, hcase⟩ | ⟨u, _, _, hcase⟩ |
      ⟨u, _, _, hcase⟩ | ⟨p, _, hcase⟩
  · rw [hcase] at h; simp at h
  · rw [hcase] at h
    rcases httpsResolve_kinds self w u with ⟨b, hb⟩ | ⟨e, he⟩ | ⟨e, he⟩
    · have := hb.symm.trans h; simp at this
    · have := he.symm.trans h; simp [FetchAndUnpackNix.error] at this
    · have := he.symm.trans h; simp [FetchAndUnpackNix.error] at this
  · rw [hcase] at h
    rcases readFileStep_kinds w u.urlPath with ⟨b, hb⟩ | ⟨e, he⟩
    · have := hb.symm.trans h; simp at this
    · have := he.symm.trans h; simp [FetchAndUnpackNix.error] at this
  · rw [hcase] at h; simp [FetchAndUnpackNix.error] at h
  · rw [hcase] at h
    rcases readFileStep_kinds w p with ⟨b, hb⟩ | ⟨e, he⟩
    · have := hb.symm.trans h; simp at this
    · have := he.symm.trans h; simp [FetchAndUnpackNix.error] at this

theorem resolveBytes_no_unknown (self : FetchAndUnpackNix) (w : World)
    (hok : ∀ u, self.distribution.tarball_location_or self.url_or_path =
      TarballLocation.UrlOrPath (UrlOrPath.url u) → urlSchemeOkP u.scheme) :
    (resolveBytes self w).1 ≠
      Except.error (FetchAndUnpackNix.error ActionErrorKind.UnknownUrlScheme) := by
  intro h
  rcases resolveBytes_cases self w with
    ⟨prov, payload, _, hcase⟩ | ⟨u, _, _, hcase⟩ | ⟨u, _, _, hcase⟩ |
      ⟨u, hloc, hbad, hcase⟩ | ⟨p, _, hcase⟩
  · rw [hcase] at h; simp at h
  · rw [hcase] at h
    rcases httpsResolve_kinds self w u with ⟨b, hb⟩ | ⟨e, he⟩ | ⟨e, he⟩
    · have := hb.symm.trans h; simp at this
    · have := he.symm.trans h; simp [FetchAndUnpackNix.error] at this
    · have := he.symm.trans h; simp [FetchAndUnpackNix.error] at this
  · rw [hcase] at h
    rcases readFileStep_kinds w u.urlPath with ⟨b, hb⟩ | ⟨e, he⟩
    · have := hb.symm.trans h; simp at this
    · have := he.symm.trans h; simp [FetchAndUnpackNix.error] at this
  · exact hbad (hok u hloc)
  · rw [hcase] at h
    rcases readFileStep_kinds w p with ⟨b, hb⟩ | ⟨e, he⟩
    · have := hb.symm.trans h; simp at this
    · have := he.symm.trans h; simp [FetchAndUnpackNix.error] at this

theorem execute_no_unknown (self : FetchAndUnpackNix) (w : World)
    (hok : ∀ u, self.distribution.tarball_location_or self.url_or_path =
      TarballLocation.UrlOrPath (UrlOrPath.url u) → urlSchemeOkP u.scheme) :
    (self.execute w).result ≠
      Except.error (FetchAndUnpackNix.error ActionErrorKind.UnknownUrlScheme) := by
  intro h
  rcases execute_cases self w with ⟨e, h1, h2⟩ | ⟨b, h1, h2⟩
  · rw [h2] at h
    simp only at h
    cases h
    exact resolveBytes_no_unknown self w hok h1
  · rw [h2] at h
    simp only at h
    rcases unpackPhase_result_kinds self w b with hk | ⟨e, hk⟩ | ⟨e, hk⟩
    · have := hk.symm.trans h; simp at this
    · have := hk.symm.trans h; simp [FetchAndUnpackNix.error] at this
    · have := hk.symm.trans h; simp [FetchAndUnpackNix.error] at this

theorem execute_success_race (self : FetchAndUnpackNix) (w : World) (b : Bytes)
    (es old : Entries)
    (hres : (resolveBytes self w).1 = Except.ok b)
    (hd : w.destInit = some old)
    (hg : w.destGoneAtRemove = true)
    (hdec : w.decodeArchive b = Except.ok es) :
    (self.execute w).result = Except.ok () ∧
    (self.execute w).destAfter = some es ∧
    (self.execute w).events = (resolveBytes self w).2 ++
      [Event.fsExistsCheck self.dest, Event.fsRemove self.dest,
        Event.fsUnpack self.dest b] := by
  rcases execute_cases self w with ⟨e, h1, h2⟩ | ⟨b', h1, h2⟩
  · have := hres.symm.trans h1; simp at this
  · have hb : b = b' := Except.ok.inj (hres.symm.trans h1)
    subst hb
    rcases unpackPhase_cases self w b with ⟨hnone, hu⟩ | ⟨old', hd', hrm, hu⟩ |
      ⟨old', e, hd', hrm, _, _⟩
    · have := hd.symm.trans hnone; simp at this
    · rcases unpackStep_result self w b none
          [Event.fsExistsCheck self.dest, Event.fsRemove self.dest] with
        ⟨hok, es', hdec', hdest, hev⟩ | ⟨e, hdec', _, _⟩
      · have hes : es = es' := Except.ok.inj (hdec.symm.trans hdec')
        subst hes
        refine ⟨?_, ?_, ?_⟩
        · rw [h2]; simp only; rw [hu]; exact hok
        · rw [h2]; simp only; rw [hu, hdest]; rfl
        · rw [h2]; simp only; rw [hu, hev]; simp
      · have := hdec.symm.trans hdec'; simp at this
    · rw [hg] at hrm
      simp [remove_dir_all] at hrm

theorem execute_removes_preexisting (self : FetchAndUnpackNix) (w : World)
    (b : Bytes) (old : Entries)
    (hres : (resolveBytes self w).1 = Except.ok b)
    (hd : w.destInit = some old) :
    Event.fsRemove self.dest ∈ (self.execute w).events := by
  rcases execute_cases self w with ⟨e, h1, h2⟩ | ⟨b', h1, h2⟩
  · have := hres.symm.trans h1; simp at this
  · have hb : b = b' := Except.ok.inj (hres.symm.trans h1)
    subst hb
    rw [h2]
    simp only
    rcases unpackPhase_cases self w b with ⟨hnone, hu⟩ | ⟨old', hd', hrm, hu⟩ |
      ⟨old', e, hd', hrm, _, hev⟩
    · have := hd.symm.trans hnone; simp at this
    · rw [hu]
      rcases unpackStep_result self w b none
          [Event.fsExistsCheck self.dest, Event.fsRemove self.dest] with
        ⟨_, es', _, _, hev⟩ | ⟨e, _, _, hev⟩ <;> rw [hev] <;> simp
    · rw [hev]; simp

theorem execute_unarchive (self : FetchAndUnpackNix) (w : World) (b : Bytes)
    (e : IoError)
    (hres : (resolveBytes self w).1 = Except.ok b)
    (hrm : remove_dir_all (!w.destGoneAtRemove) w.removeFailure OnMissing.Ignore =
      Except.ok ())
    (hdec : w.decodeArchive b = Except.error e) :
    (self.execute w).result = Except.error (FetchAndUnpackNix.error
      (ActionErrorKind.Custom (FetchUrlError.Unarchive e))) := by
  rcases execute_cases self w with ⟨e', h1, h2⟩ | ⟨b', h1, h2⟩
  · have := hres.symm.trans h1; simp at this
  · have hb : b = b' := Except.ok.inj (hres.symm.trans h1)
    subst hb
    rw [h2]
    simp only
    rcases unpackPhase_cases self w b with ⟨hnone, hu⟩ | ⟨old', hd', hrm', hu⟩ |
      ⟨old', e', hd', hrm', _, _⟩
    · rw [hu]
      rcases unpackStep_result self w b none [Event.fsExistsCheck self.dest] with
        ⟨_, es', hdec', _, _⟩ | ⟨e', hdec', herr, _⟩
      · have := hdec.symm.trans hdec'; simp at this
      · have he : e = e' := by
          have := hdec.symm.trans hdec'; simpa using this
        subst he
        exact herr
    · rw [hu]
      rcases unpackStep_result self w b none
          [Event.fsExistsCheck self.dest, Event.fsRemove self.dest] with
        ⟨_, es', hdec', _, _⟩ | ⟨e', hdec', herr, _⟩
      · have := hdec.symm.trans hdec'; simp at this
      · have he : e = e' := by
          have := hdec.symm.trans hdec'; simpa using this
        subst he
        exact herr
    · have := hrm.symm.trans hrm'; simp at this

theorem execute_unarchive_only (self : FetchAndUnpackNix) (w : World) (e : IoError)
    (h : (self.execute w).result = Except.error (FetchAndUnpackNix.error
      (ActionErrorKind.Custom (FetchUrlError.Unarchive e)))) :
    ∃ b, (resolveBytes self w).1 = Except.ok b ∧
      w.decodeArchive b = Except.error e := by
  rcases execute_cases self w with ⟨e', h1, h2⟩ | ⟨b, h1, h2⟩
  · rw [h2] at h
    simp only at h
    cases h
    exact absurd h1 (resolveBytes_no_custom self w (FetchUrlError.Unarchive e))
  · rw [h2] at h
    simp only at h
    refine ⟨b, h1, ?_⟩
    rcases unpackPhase_cases self w b with ⟨_, hu⟩ | ⟨old', _, _, hu⟩ |
      ⟨old', e', _, _, hres2, _⟩
    · rw [hu] at h
      rcases unpackStep_result self w b none [Event.fsExistsCheck self.dest] with
        ⟨hok, _⟩ | ⟨e', hdec', herr, _⟩
      · have := hok.symm.trans h; simp at this
      · have he : e' = e := by
          have := herr.symm.trans h
          simp [FetchAndUnpackNix.error] at this
          exact this
        rw [← he]; exact hdec'
    · rw [hu] at h
      rcases unpackStep_result self w b none
          [Event.fsExistsCheck self.dest, Event.fsRemove self.dest] with
        ⟨hok, _⟩ | ⟨e', hdec', herr, _⟩
      · have := hok.symm.trans h; simp at this
      · have he : e' = e := by
          have := herr.symm.trans h
          simp [FetchAndUnpackNix.error] at this
          exact this
        rw [← he]; exact hdec'
    · have := hres2.symm.trans h
      simp [FetchAndUnpackNix.error] at this

theorem unpackPhase_events_shape (self : FetchAndUnpackNix) (w : World) (b : Bytes)
    (e : Event) (h : e ∈ (unpackPhase self w b).events) :
    e = Event.fsExistsCheck self.dest ∨ e = Event.fsRemove self.dest ∨
      e = Event.fsUnpack self.dest b := by
  rcases unpackPhase_cases self w b with ⟨_, hu⟩ | ⟨old', _, _, hu⟩ |
    ⟨old', e', _, _, _, hev⟩
  · rw [hu] at h
    rcases unpackStep_result self w b none [Event.fsExistsCheck self.dest] with
      ⟨_, es', _, _, hev⟩ | ⟨e', _, _, hev⟩ <;> rw [hev] at h <;> simp at h <;> tauto
  · rw [hu] at h
    rcases unpackStep_result self w b none
        [Event.fsExistsCheck self.dest, Event.fsRemove self.dest] with
      ⟨_, es', _, _, hev⟩ | ⟨e', _, _, hev⟩ <;> rw [hev] at h <;> simp at h <;> tauto
  · rw [hev] at h; simp at h; tauto

theorem execute_embedded_resolve (self : FetchAndUnpackNix) (w : World)
    (prov : String) (payload : Bytes)
    (hd : self.distribution = Distribution.inMemory prov payload) :
    resolveBytes self w = (Except.ok payload, []) := by
  have hloc : self.distribution.tarball_location_or self.url_or_path =
      TarballLocation.InMemory prov payload := by
    rw [hd]
    rfl
  unfold resolveBytes
  rw [hloc]

theorem execute_embedded_events (self : FetchAndUnpackNix) (w : World)
    (prov : String) (payload : Bytes)
    (hd : self.distribution = Distribution.inMemory prov payload)
    (e : Event) (h : e ∈ (self.execute w).events) :
    e = Event.fsExistsCheck self.dest ∨ e = Event.fsRemove self.dest ∨
      e = Event.fsUnpack self.dest payload := by
  have hres := execute_embedded_resolve self w prov payload hd
  rcases execute_cases self w with ⟨e', h1, h2⟩ | ⟨b, h1, h2⟩
  · rw [hres] at h1; simp at h1
  · have hb : payload = b := by rw [hres] at h1; simpa using h1
    subst hb
    rw [h2] at h
    simp only at h
    rw [hres] at h
    simp only [List.nil_append] at h
    exact unpackPhase_events_shape self w payload e h

theorem execute_reqwest_httpGet (self : FetchAndUnpackNix) (w : World)
    (u : Url) (r : ReqwestError)
    (hloc : self.distribution.tarball_location_or self.url_or_path =
      TarballLocation.UrlOrPath (UrlOrPath.url u))
    (hs : u.scheme = "https") (hpx : self.proxy = none)
    (hcert : self.ssl_cert_file = none)
    (hcb : w.clientBuild = Except.ok ()) (hrb : w.reqBuild u = Except.ok ())
    (hget : w.httpGet u = Except.error r) :
    (self.execute w).result =
      Except.error (FetchAndUnpackNix.error (ActionErrorKind.Reqwest r)) := by
  have hres : resolveBytes self w =
      (Except.error (FetchAndUnpackNix.error (ActionErrorKind.Reqwest r)),
        [Event.httpRequest u none none]) := by
    unfold resolveBytes
    simp only [hloc]
    rw [hs]
    show httpsResolve self w u = _
    simp only [httpsResolve, hpx, httpsResolveCert, hcert, httpsResolveClient,
      hcb, hrb, hget]
  rcases execute_cases self w with ⟨e, h1, h2⟩ | ⟨b, h1, h2⟩
  · rw [hres] at h1
    simp only at h1
    cases h1
    rw [h2]
  · rw [hres] at h1; simp at h1

theorem signalHandlerRun_sent (s : BroadcastState) (sigs : List OsSignal) :
    (signalHandlerRun s sigs).sent = s.sent + sigs.length := by
  induction sigs generalizing s with
  | nil => simp [signalHandlerRun]
  | cons a l ih =>
      have : signalHandlerRun s (a :: l) = signalHandlerRun (broadcastSend s) l := rfl
      rw [this, ih]
      simp [broadcastSend]
      omega

/-- A harmless world: every oracle succeeds, destination absent. -/
def wTriv : World :=
  ⟨fun _ => Except.ok ⟨[]⟩, fun _ => Except.ok (), Except.ok (),
    fun _ => Except.ok (), fun _ => Except.ok (), fun _ => Except.ok [],
    fun _ => Except.ok [], none, false, none, fun _ => Except.ok [], none⟩

/-- A world whose certificate parser rejects every file. -/
def wCertFail : World :=
  ⟨fun _ => Except.error ⟨"bad certificate"⟩, fun _ => Except.ok (), Except.ok (),
    fun _ => Except.ok (), fun _ => Except.ok (), fun _ => Except.ok [],
    fun _ => Except.ok [], none, false, none, fun _ => Except.ok [], none⟩

/-- A world where the destination pre-exists with a stale entry and is removed
concurrently between the existence check and the removal; the archive decodes
to one entry holding the archive bytes. -/
def wRace : World :=
  ⟨fun _ => Except.ok ⟨[]⟩, fun _ => Except.ok (), Except.ok (),
    fun _ => Except.ok (), fun _ => Except.ok (), fun _ => Except.ok [],
    fun _ => Except.ok [], some [(("leftover.txt"), [7])], true, none,
    fun b => Except.ok [(("store"), b)], none⟩

/-- A world whose archive extraction always fails with I/O error 5. -/
def wUnpackFail : World :=
  ⟨fun _ => Except.ok ⟨[]⟩, fun _ => Except.ok (), Except.ok (),
    fun _ => Except.ok (), fun _ => Except.ok (), fun _ => Except.ok [],
    fun _ => Except.ok [], none, false, none, fun _ => Except.error ⟨5⟩, none⟩

def urlHttps : Url := ⟨"https", "example.com", "/nix.tar.xz"⟩

def urlFtp : Url := ⟨"ftp", "example.com", "/nix.tar.xz"⟩

def proxySocks4 : Url := ⟨"socks4", "proxy.local", ""⟩

def proxySocks5 : Url := ⟨"socks5", "proxy.local", ""⟩

def distHttps : Distribution := Distribution.locator (UrlOrPath.url urlHttps)

def distFtp : Distribution := Distribution.locator (UrlOrPath.url urlFtp)

def payloadEmb : Bytes := [1, 2, 3]

def distEmb : Distribution := Distribution.inMemory ("nix-tarball") payloadEmb

def selfFtpDefault : FetchAndUnpackNix := ⟨distFtp, none, "/nix/install", none, none⟩

def selfHttps : FetchAndUnpackNix :=
  ⟨distHttps, some (UrlOrPath.url urlHttps), "/nix/install", none, none⟩

def selfEmb : FetchAndUnpackNix :=
  ⟨distEmb, some (UrlOrPath.url urlHttps), "/nix/install", none, none⟩

/-- C1 (counterexample): the claim "plan returns success whenever the URL's
scheme is https/http/file" is false as stated over all inputs: with an https
locator but a socks4 proxy, plan fails (with the custom UnknownProxyScheme
kind), not succeeds. -/
theorem plan_url_whitelist_cex :
    urlHttps.scheme = "https" ∧
    (FetchAndUnpackNix.plan wTriv distHttps (some (UrlOrPath.url urlHttps))
        ("/nix/install") (some proxySocks4) none).1 =
      Except.error ⟨"fetch_and_unpack_nix",
        ActionErrorKind.Custom FetchUrlError.UnknownProxyScheme⟩ :=
  ⟨rfl, rfl⟩

/-- C1 (amended): for a URL locator, plan succeeds if the scheme is one of
https/http/file and the proxy and certificate checks also pass; for any other
scheme it fails with UnknownUrlScheme; and every effect plan performs is a
certificate-file parse — no network access and no filesystem access for the
locator. -/
theorem plan_url_scheme_validation (w : World) (d : Distribution) (u : Url)
    (dest : String) (proxy : Option Url) (cert : Option String) :
    (urlSchemeOkP u.scheme → proxyOkP proxy → certOkP w cert →
      (FetchAndUnpackNix.plan w d (some (UrlOrPath.url u)) dest proxy cert).1 =
        Except.ok (StatefulAction.into
          ⟨d, some (UrlOrPath.url u), dest, proxy, cert⟩)) ∧
    (¬ urlSchemeOkP u.scheme →
      FetchAndUnpackNix.plan w d (some (UrlOrPath.url u)) dest proxy cert =
        (Except.error (FetchAndUnpackNix.error ActionErrorKind.UnknownUrlScheme), [])) ∧
    (∀ e ∈ (FetchAndUnpackNix.plan w d (some (UrlOrPath.url u)) dest proxy cert).2,
      ∃ p, e = Event.certParse p) := by
  refine ⟨?_, ?_, ?_⟩
  · intro h1 h2 h3
    exact plan_succeeds w d (some (UrlOrPath.url u)) dest proxy cert h1 h2 h3
  · exact plan_url_fails w d u dest proxy cert
  · exact plan_events w d (some (UrlOrPath.url u)) dest proxy cert

/-- C1 (witness): a whitelisted https locator with no proxy and no certificate
is accepted by plan. -/
theorem plan_url_scheme_validation_witness :
    (FetchAndUnpackNix.plan wTriv distHttps (some (UrlOrPath.url urlHttps))
        ("/nix/install") none none).1 =
      Except.ok (StatefulAction.into
        ⟨distHttps, some (UrlOrPath.url urlHttps), ("/nix/install"), none, none⟩) :=
  (plan_url_scheme_validation wTriv distHttps urlHttps ("/nix/install") none none).1
    (Or.inl rfl) True.intro True.intro

/-- C5 (counterexample): the claim "plan returns success whenever the proxy's
scheme is https/http/socks5" is false as stated over all inputs: with a socks5
proxy but an ftp locator, plan fails with UnknownUrlScheme (not success, and
not UnknownProxyScheme). -/
theorem plan_proxy_whitelist_cex :
    proxySocks5.scheme = "socks5" ∧
    (FetchAndUnpackNix.plan wTriv distFtp (some (UrlOrPath.url urlFtp))
        ("/nix/install") (some proxySocks5) none).1 =
      Except.error ⟨"fetch_and_unpack_nix", ActionErrorKind.UnknownUrlScheme⟩ :=
  ⟨rfl, rfl⟩

/-- C5 (amended): once the locator check passes, plan succeeds for a proxy
scheme in {https, http, socks5} (certificate check also passing), and fails
with the custom UnknownProxyScheme kind for every other proxy scheme. -/
theorem plan_proxy_scheme_validation (w : World) (d : Distribution)
    (uop : Option UrlOrPath) (dest : String) (proxy : Option Url)
    (cert : Option String) :
    (locatorOkP uop → proxyOkP proxy → certOkP w cert →
      (FetchAndUnpackNix.plan w d uop dest proxy cert).1 =
        Except.ok (StatefulAction.into ⟨d, uop, dest, proxy, cert⟩)) ∧
    (locatorOkP uop → ∀ p, proxy = some p → ¬ proxyOkP (some p) →
      FetchAndUnpackNix.plan w d uop dest proxy cert =
        (Except.error (FetchAndUnpackNix.error
          (ActionErrorKind.Custom FetchUrlError.UnknownProxyScheme)), [])) := by
  constructor
  · exact plan_succeeds w d uop dest proxy cert
  · intro hl p hp hnp
    subst hp
    cases uop with
    | none => exact planProxyStep_fails w d none dest p cert hnp
    | some uu =>
        cases uu with
        | path q => exact planProxyStep_fails w d (some (UrlOrPath.path q)) dest p cert hnp
        | url u =>
            have hl' : urlSchemeOkP u.scheme := hl
            simp only [FetchAndUnpackNix.plan]
            rcases hl' with hs | hs | hs <;> rw [hs] <;>
              exact planProxyStep_fails w d (some (UrlOrPath.url u)) dest p cert hnp

/-- C5 (witness): with an accepted https locator and a socks5 proxy, plan
succeeds. -/
theorem plan_proxy_scheme_validation_witness :
    (FetchAndUnpackNix.plan wTriv distHttps (some (UrlOrPath.url urlHttps))
        ("/nix/install") (some proxySocks5) none).1 =
      Except.ok (StatefulAction.into
        ⟨distHttps, some (UrlOrPath.url urlHttps), ("/nix/install"),
          some proxySocks5, none⟩) :=
  (plan_proxy_scheme_validation wTriv distHttps (some (UrlOrPath.url urlHttps))
      ("/nix/install") (some proxySocks5) none).1
    (Or.inl rfl) (Or.inr (Or.inr rfl)) True.intro

/-- C8: when a certificate file is configured, a parse failure makes plan
return an error, and plan can only succeed if the file parses as a usable
certificate. -/
theorem plan_cert_validation (w : World) (d : Distribution)
    (uop : Option UrlOrPath) (dest : String) (proxy : Option Url)
    (certFile : String) :
    ((∃ e, w.parseSslCert certFile = Except.error e) →
      ∃ err, (FetchAndUnpackNix.plan w d uop dest proxy (some certFile)).1 =
        Except.error err) ∧
    (∀ sa, (FetchAndUnpackNix.plan w d uop dest proxy (some certFile)).1 =
        Except.ok sa →
      ∃ c, w.parseSslCert certFile = Except.ok c) := by
  constructor
  · intro hparse
    cases hres : (FetchAndUnpackNix.plan w d uop dest proxy (some certFile)).1 with
    | error err => exact ⟨err, rfl⟩
    | ok sa =>
        obtain ⟨-, -, -, hc⟩ := plan_ok w d uop dest proxy (some certFile) sa hres
        obtain ⟨c, hc2⟩ := hc
        obtain ⟨e, he⟩ := hparse
        rw [he] at hc2
        simp at hc2
  · intro sa hres
    obtain ⟨-, -, -, hc⟩ := plan_ok w d uop dest proxy (some certFile) sa hres
    exact hc

/-- C8 (witness): with a failing certificate parser, plan on a certificate
file returns an error. -/
theorem plan_cert_validation_witness :
    ∃ err, (FetchAndUnpackNix.plan wCertFail distHttps
        (some (UrlOrPath.url urlHttps)) ("/nix/install") none
        (some ("/cert.pem"))).1 = Except.error err :=
  (plan_cert_validation wCertFail distHttps (some (UrlOrPath.url urlHttps))
      ("/nix/install") none ("/cert.pem")).1 ⟨⟨"bad certificate"⟩, rfl⟩

/-- C3: revert returns Ok and performs no effect at all — its event trace is
empty — for every instance and every world (i.e. regardless of any prior
history of execute). -/
theorem revert_noop (self : FetchAndUnpackNix) (w : World) :
    FetchAndUnpackNix.revert self w = (Except.ok (), []) :=
  rfl

/-- C10: revert_description is the empty list while execute_description is
exactly one entry carrying the tracing synopsis. -/
theorem descriptions_spec (self : FetchAndUnpackNix) :
    FetchAndUnpackNix.revert_description self = [] ∧
    FetchAndUnpackNix.execute_description self =
      [ActionDescription.new (FetchAndUnpackNix.tracing_synopsis self) []] :=
  ⟨rfl, rfl⟩

/-- C2: (i) after a successful execute the destination contains exactly the
archive's decoded entries; (ii) a destination that pre-exists at the check but
is concurrently removed before the removal runs is treated as success, and the
trace shows removal before extraction; (iii) whenever the destination
pre-exists (and bytes resolved), a recursive removal is performed. -/
theorem execute_idempotent_dest (self : FetchAndUnpackNix) (w : World) :
    ((self.execute w).result = Except.ok () →
      ∃ b es, (resolveBytes self w).1 = Except.ok b ∧
        w.decodeArchive b = Except.ok es ∧
        (self.execute w).destAfter = some es) ∧
    (∀ b es old, (resolveBytes self w).1 = Except.ok b → w.destInit = some old →
      w.destGoneAtRemove = true → w.decodeArchive b = Except.ok es →
      (self.execute w).result = Except.ok () ∧
      (self.execute w).destAfter = some es ∧
      (self.execute w).events = (resolveBytes self w).2 ++
        [Event.fsExistsCheck self.dest, Event.fsRemove self.dest,
          Event.fsUnpack self.dest b]) ∧
    (∀ b old, (resolveBytes self w).1 = Except.ok b → w.destInit = some old →
      Event.fsRemove self.dest ∈ (self.execute w).events) :=
  ⟨execute_ok self w,
    fun b es old h1 h2 h3 h4 => execute_success_race self w b es old h1 h2 h3 h4,
    fun b old h1 h2 => execute_removes_preexisting self w b old h1 h2⟩

/-- C2 (witness): with a pre-existing destination holding a stale entry,
removed concurrently between check and removal, execute succeeds and the
destination afterwards holds exactly the decoded archive contents. -/
theorem execute_idempotent_dest_witness :
    (FetchAndUnpackNix.execute selfEmb wRace).result = Except.ok () ∧
    (FetchAndUnpackNix.execute selfEmb wRace).destAfter =
      some [(("store"), payloadEmb)] := by
  have h := (execute_idempotent_dest selfEmb wRace).2.1 payloadEmb
    [(("store"), payloadEmb)] [(("leftover.txt"), [7])] rfl rfl rfl rfl
  exact ⟨h.1, h.2.1⟩

/-- C4: with an embedded in-memory payload, execute resolves the archive
bytes from the payload directly (no resolution effects at all), and the whole
execution performs no network request, no filesystem read, and no
certificate-file read, whatever locator is also configured. -/
theorem execute_embedded_no_network (self : FetchAndUnpackNix) (w : World)
    (prov : String) (payload : Bytes)
    (hd : self.distribution = Distribution.inMemory prov payload) :
    resolveBytes self w = (Except.ok payload, []) ∧
    ∀ e ∈ (self.execute w).events,
      (∀ u pr c, e ≠ Event.httpRequest u pr c) ∧
      (∀ p, e ≠ Event.fsRead p) ∧ (∀ p, e ≠ Event.certParse p) := by
  refine ⟨execute_embedded_resolve self w prov payload hd, ?_⟩
  intro e he
  rcases execute_embedded_events self w prov payload hd e he with h | h | h <;>
    subst h <;>
    exact ⟨fun u pr c => by simp, fun p => by simp, fun p => by simp⟩

/-- C4 (witness): the embedded action resolves its bytes with no effects even
though an https locator is also configured. -/
theorem execute_embedded_no_network_witness :
    resolveBytes selfEmb wTriv = (Except.ok payloadEmb, []) :=
  (execute_embedded_no_network selfEmb wTriv ("nix-tarball") payloadEmb rfl).1

/-- C6: an archive-extraction failure surfaces as the custom Unarchive kind;
an Unarchive error can only originate from the extraction step (after a
successful fetch); a transport failure of the GET surfaces as the Reqwest
kind; and the two error values are never equal. -/
theorem error_kinds_distinct (self : FetchAndUnpackNix) (w : World) :
    (∀ b e, (resolveBytes self w).1 = Except.ok b →
      remove_dir_all (!w.destGoneAtRemove) w.removeFailure OnMissing.Ignore =
        Except.ok () →
      w.decodeArchive b = Except.error e →
      (self.execute w).result = Except.error (FetchAndUnpackNix.error
        (ActionErrorKind.Custom (FetchUrlError.Unarchive e)))) ∧
    (∀ e, (self.execute w).result = Except.error (FetchAndUnpackNix.error
        (ActionErrorKind.Custom (FetchUrlError.Unarchive e))) →
      ∃ b, (resolveBytes self w).1 = Except.ok b ∧
        w.decodeArchive b = Except.error e) ∧
    (∀ u r, self.distribution.tarball_location_or self.url_or_path =
        TarballLocation.UrlOrPath (UrlOrPath.url u) → u.scheme = "https" →
      self.proxy = none → self.ssl_cert_file = none →
      w.clientBuild = Except.ok () → w.reqBuild u = Except.ok () →
      w.httpGet u = Except.error r →
      (self.execute w).result =
        Except.error (FetchAndUnpackNix.error (ActionErrorKind.Reqwest r))) ∧
    (∀ e r, FetchAndUnpackNix.error (ActionErrorKind.Custom
        (FetchUrlError.Unarchive e)) ≠
      FetchAndUnpackNix.error (ActionErrorKind.Reqwest r)) := by
  refine ⟨?_, ?_, ?_, ?_⟩
  · exact fun b e h1 h2 h3 => execute_unarchive self w b e h1 h2 h3
  · exact fun e h => execute_unarchive_only self w e h
  · exact fun u r h1 h2 h3 h4 h5 h6 h7 =>
      execute_reqwest_httpGet self w u r h1 h2 h3 h4 h5 h6 h7
  · intro e r
    simp [FetchAndUnpackNix.error]

/-- C6 (witness): with an embedded payload and a failing extractor, execute
fails with the custom Unarchive kind. -/
theorem error_kinds_distinct_witness :
    (FetchAndUnpackNix.execute selfEmb wUnpackFail).result =
      Except.error (FetchAndUnpackNix.error
        (ActionErrorKind.Custom (FetchUrlError.Unarchive ⟨5⟩))) :=
  (error_kinds_distinct selfEmb wUnpackFail).1 payloadEmb ⟨5⟩ rfl rfl rfl

/-- C9 (counterexample): an action whose distribution supplies a default
ftp-scheme locator slips through plan (no explicit locator configured, so the
URL check is skipped) and then reaches the execute fallback branch, returning
UnknownUrlScheme — the branch is not unreachable after a successful plan. -/
theorem execute_unknown_scheme_cex :
    (FetchAndUnpackNix.plan wTriv distFtp none ("/nix/install") none none).1 =
      Except.ok (StatefulAction.into selfFtpDefault) ∧
    (FetchAndUnpackNix.execute selfFtpDefault wTriv).result =
      Except.error ⟨"fetch_and_unpack_nix", ActionErrorKind.UnknownUrlScheme⟩ :=
  ⟨rfl, rfl⟩

/-- C9 (amended): whenever the locator is explicitly configured and plan
accepted it, the execute-time fallback branch for an unknown URL scheme is
unreachable: execute never returns UnknownUrlScheme. -/
theorem execute_no_unknown_scheme_when_locator_planned (w w2 : World)
    (d : Distribution) (uop : UrlOrPath) (dest : String) (proxy : Option Url)
    (cert : Option String) (sa : StatefulAction FetchAndUnpackNix)
    (h : (FetchAndUnpackNix.plan w d (some uop) dest proxy cert).1 =
      Except.ok sa) :
    (FetchAndUnpackNix.execute sa.action w2).result ≠
      Except.error (FetchAndUnpackNix.error ActionErrorKind.UnknownUrlScheme) := by
  obtain ⟨hsa, hl, -, -⟩ := plan_ok w d (some uop) dest proxy cert sa h
  subst hsa
  apply execute_no_unknown
  intro u hu
  cases d with
  | inMemory prov payload =>
      simp [StatefulAction.into, Distribution.tarball_location_or] at hu
  | locator loc =>
      simp [StatefulAction.into, Distribution.tarball_location_or] at hu
      rw [hu] at hl
      exact hl

/-- C9 (witness): a plan-accepted https locator never reaches the fallback. -/
theorem execute_no_unknown_scheme_witness :
    (FetchAndUnpackNix.execute (StatefulAction.into selfHttps).action wTriv).result ≠
      Except.error (FetchAndUnpackNix.error ActionErrorKind.UnknownUrlScheme) :=
  execute_no_unknown_scheme_when_locator_planned wTriv wTriv distHttps
    (UrlOrPath.url urlHttps) ("/nix/install") none none
    (StatefulAction.into selfHttps) rfl

/-- C7: after any nonempty sequence of OS signals is republished by the
listener loop, a subscribed receiver (subscribed no later than the signals,
however slowly it reads) never finds the bus silently empty: its next recv is
a stop notification or a coalesced lag report, and in the lagged case the
recv right after it yields a stop notification — the fact that a stop
occurred is never lost, though repeated signals may be coalesced. -/
theorem signal_stop_observable (s : BroadcastState) (r : BroadcastReceiver)
    (sigs : List OsSignal) (hr : r.readPos ≤ s.sent) (hn : sigs ≠ []) :
    (broadcastRecv signalChannelCapacity (signalHandlerRun s sigs) r).1 ≠
      RecvOutcome.pending ∧
    ((broadcastRecv signalChannelCapacity (signalHandlerRun s sigs) r).1 =
        RecvOutcome.value ∨
      (broadcastRecv signalChannelCapacity (signalHandlerRun s sigs)
        (broadcastRecv signalChannelCapacity (signalHandlerRun s sigs) r).2).1 =
        RecvOutcome.value) := by
  have hsent := signalHandlerRun_sent s sigs
  have hlen : 1 ≤ sigs.length := by
    cases sigs with
    | nil => exact absurd rfl hn
    | cons a l => simp
  have h1 : ¬ (signalHandlerRun s sigs).sent ≤ r.readPos := by omega
  constructor
  · unfold broadcastRecv signalChannelCapacity
    by_cases h2 : (signalHandlerRun s sigs).sent - r.readPos ≤ 100
    · rw [if_neg h1, if_pos h2]; simp
    · rw [if_neg h1, if_neg h2]; simp
  · by_cases h2 : (signalHandlerRun s sigs).sent - r.readPos ≤ 100
    · left
      unfold broadcastRecv signalChannelCapacity
      rw [if_neg h1, if_pos h2]
    · right
      have hstep : (broadcastRecv signalChannelCapacity (signalHandlerRun s sigs) r).2 =
          ⟨(signalHandlerRun s sigs).sent - 100⟩ := by
        unfold broadcastRecv signalChannelCapacity
        rw [if_neg h1, if_neg h2]
      rw [hstep]
      unfold broadcastRecv signalChannelCapacity
      have hc1 : ¬ ((signalHandlerRun s sigs).sent ≤
          (⟨(signalHandlerRun s sigs).sent - 100⟩ : BroadcastReceiver).readPos) := by
        show ¬ ((signalHandlerRun s sigs).sent ≤ (signalHandlerRun s sigs).sent - 100)
        omega
      have hc2 : (signalHandlerRun s sigs).sent -
          (⟨(signalHandlerRun s sigs).sent - 100⟩ : BroadcastReceiver).readPos ≤ 100 := by
        show (signalHandlerRun s sigs).sent - ((signalHandlerRun s sigs).sent - 100) ≤ 100
        omega
      rw [if_neg hc1, if_pos hc2]

/-- C7 (witness): on the freshly created bus of signal_channel, after one
SIGINT and one SIGTERM, the subscribed receiver observes a stop. -/
theorem signal_stop_observable_witness :
    (broadcastRecv signalChannelCapacity
        (signalHandlerRun signal_channel.1 [OsSignal.interrupt, OsSignal.terminate])
        signal_channel.2).1 ≠ RecvOutcome.pending :=
  (signal_stop_observable signal_channel.1 signal_channel.2
    [OsSignal.interrupt, OsSignal.terminate] (Nat.le_refl 0) (by simp)).1
